import Mathlib

/-!
Verification of the scrap_github harvesting engine (app/utils.py,
app/token_manager.py, app/phases/phase1.py, app/phases/phase2.py)
against its specification.  The Python code is shallowly embedded:
HTTP traffic is abstracted as an oracle mapping attempt or page
numbers to responses, wall-clock sleeps become explicit events, and
database statements become pure functions over lists of rows.
-/

namespace ScrapGithub

/-! ## app/utils.py : rate_limit_handler and make_github_request

A GitHub API response is abstracted to the parts the code inspects:
the HTTP status, the X-RateLimit-Remaining header (a string, with the
default value "0" supplied by response.headers.get), and the optional
X-RateLimit-Reset header (an epoch timestamp; Python falls back to
time.time() when it is absent).  A network attempt either yields a
response or raises requests.exceptions.RequestException. -/

structure Resp where
  status : Nat
  remaining : String
  reset : Option Int
  deriving Repr, DecidableEq

inductive Attempt where
  | ok (r : Resp)
  | exn
  deriving Repr, DecidableEq

/-- The observable sleeps performed by make_github_request:
a rate-limit sleep from rate_limit_handler, or the exponential
backoff time.sleep(2 ** attempt). -/
inductive Event where
  | sleepReset (secs : Int)
  | backoff (secs : Nat)
  deriving Repr, DecidableEq

/-- utils.rate_limit_handler: on a 403 whose X-RateLimit-Remaining is
"0", sleep max(reset_time - time.time(), 60) seconds; otherwise do
nothing.  `now` is the value of time.time(). -/
def rate_limit_handler (now : Int) (r : Resp) : List Event :=
  if r.status = 403 ∧ r.remaining = "0" then
    [Event.sleepReset (max (r.reset.getD now - now) 60)]
  else []

/-- The body of utils.make_github_request's `for attempt in
range(max_retries)` loop, from loop index `attempt` on.  `oracle`
gives the outcome of the requests.get call of each attempt.  `fuel`
is the number of loop iterations still in range, max_retries -
attempt: `fuel = 0` is the loop running off the end of its range and
falling through to the final `return None`, and `0 < fuel` after the
current iteration is consumed is the source's
`attempt < max_retries - 1` test.  Returns the function's result
together with the sleeps performed. -/
def make_github_request_go (oracle : Nat → Attempt) (now : Int) :
    Nat → Nat → Option Resp × List Event
  | _, 0 => (none, [])
  | attempt, fuel + 1 =>
    match oracle attempt with
    | Attempt.ok r =>
      if r.status = 200 then (some r, [])
      else if r.status = 403 then
        let rest := make_github_request_go oracle now (attempt + 1) fuel
        (rest.1, rate_limit_handler now r ++ rest.2)
      else if r.status = 404 then (none, [])
      else
        if 0 < fuel then
          let rest := make_github_request_go oracle now (attempt + 1) fuel
          (rest.1, Event.backoff (2 ^ attempt) :: rest.2)
        else (none, [])
    | Attempt.exn =>
        if 0 < fuel then
          let rest := make_github_request_go oracle now (attempt + 1) fuel
          (rest.1, Event.backoff (2 ^ attempt) :: rest.2)
        else (none, [])

/-- utils.make_github_request with explicit max_retries. -/
def make_github_request (oracle : Nat → Attempt) (now : Int) (max_retries : Nat) :
    Option Resp × List Event :=
  make_github_request_go oracle now 0 max_retries

/-- The default value of the max_retries parameter in the source. -/
def MAX_RETRIES_DEFAULT : Nat := 3

/-- utils.make_github_request at its default retry ceiling. -/
def make_github_request_default (oracle : Nat → Attempt) (now : Int) :
    Option Resp × List Event :=
  make_github_request oracle now MAX_RETRIES_DEFAULT

/-! ## app/token_manager.py : TokenManager.get_best_token

Per-token state as kept in TokenManager.token_stats: remaining
requests, reset timestamp, active flag.  (last_check is never read by
the selection logic and is omitted.)  get_best_token runs under
`with self.lock:` where self.lock is a non-reentrant threading.Lock;
the embedding threads the lock explicitly, and an acquisition of a
lock already held by the same code path is a permanent block, modelled
as the outcome `deadlock`.  The network side effects of
_update_token_stats are abstracted away by taking the post-update
stats list as the input. -/

structure TokenStats where
  remaining : Nat
  reset_time : Int
  active : Bool
  deriving Repr, DecidableEq

inductive GetBestTokenResult where
  | noTokens
  | token (i : Nat)
  | deadlock
  deriving Repr, DecidableEq

/-- The selection loop of get_best_token: `best_index = None;
best_remaining = 0; for i, token in enumerate(...): if active and
remaining > best_remaining: update`.  `i` is the loop counter, `bi`
and `br` the accumulators. -/
def best_token_go : Nat → List TokenStats → Option Nat → Nat → Option Nat × Nat
  | _, [], bi, br => (bi, br)
  | i, s :: rest, bi, br =>
    if s.active = true ∧ br < s.remaining then
      best_token_go (i + 1) rest (some i) s.remaining
    else
      best_token_go (i + 1) rest bi br

/-- The (best_index, best_remaining) pair computed by get_best_token. -/
def best_token_index (stats : List TokenStats) : Option Nat × Nat :=
  best_token_go 0 stats none 0

/-- TokenManager._wait_for_reset: compute the earliest reset_time
(min() over a nonempty collection), and, only when it is still in the
future, sleep past it and reactivate every token.  When the earliest
reset is already past, the stats are left untouched. -/
def wait_for_reset (now : Int) (stats : List TokenStats) : List TokenStats :=
  match stats.map (fun s => s.reset_time) with
  | [] => stats
  | t :: ts =>
    let earliest := ts.foldl min t
    if 0 < earliest - now then
      stats.map (fun s => { s with active := true })
    else stats

/-- TokenManager.get_best_token with the lock state explicit.  The
method body executes inside `with self.lock:`; when every token is
exhausted it calls _wait_for_reset and then recursively calls
get_best_token while still holding the non-reentrant lock, so the
inner acquisition blocks forever. -/
def get_best_token_go (lockHeld : Bool) (now : Int) (stats : List TokenStats) :
    GetBestTokenResult :=
  if lockHeld then GetBestTokenResult.deadlock
  else
    if stats.isEmpty then GetBestTokenResult.noTokens
    else
      match (best_token_index stats).1 with
      | some i => GetBestTokenResult.token i
      | none =>
        get_best_token_go true now (wait_for_reset now stats)
termination_by (if lockHeld then 0 else 1)
decreasing_by simp_all

/-- TokenManager.get_best_token as called by a worker (lock free on
entry). -/
def get_best_token (now : Int) (stats : List TokenStats) : GetBestTokenResult :=
  get_best_token_go false now stats

/-! ## app/phases/phase1.py : Phase1Collector discovery loops

A search-result item is abstracted to the field the collection logic
reads, item.get('id'); Python truthiness makes both a missing id and
an id of 0 skip the item.  The GitHub search API is an oracle from
(query facet, page number) to an optional response ('no response'
models thread_safe_request returning None) carrying the list of items
(data.get('items', [])).  The shared seen-set self.collected_repos is
threaded as a list of ids; self.repo_lock makes the check-and-insert
atomic, so the sequential embedding of one task is faithful for the
per-task output. -/

structure Item where
  id : Option Nat
  deriving Repr, DecidableEq

/-- Phase1Collector.add_repository_safe: under repo_lock, if the id
is not in collected_repos, insert it and report true, else false. -/
def add_repository_safe (seen : List Nat) (repo_id : Nat) : Bool × List Nat :=
  if repo_id ∈ seen then (false, seen) else (true, repo_id :: seen)

/-- The `for item in items:` body shared by both search loops: skip
items whose id is falsy, append an item whose id passes
add_repository_safe, and break as soon as the ceiling maxRepos is
reached. -/
def collect_page (maxRepos : Nat) :
    List Item → List Item → List Nat → List Item × List Nat
  | [], repos, seen => (repos, seen)
  | item :: rest, repos, seen =>
    match item.id with
    | none => collect_page maxRepos rest repos seen
    | some repo_id =>
      if repo_id = 0 then collect_page maxRepos rest repos seen
      else
        let step := add_repository_safe seen repo_id
        if step.1 then
          let repos' := repos ++ [item]
          if maxRepos ≤ repos'.length then (repos', step.2)
          else collect_page maxRepos rest repos' step.2
        else collect_page maxRepos rest repos seen

/-- The `page = 1; while len(repositories) < PHASE1_MAX_REPOS:` loop
shared by both search functions: stop on a missing response, an empty
item list, a full result list, or page > 10 (the 1000-result search
depth ceiling). -/
def search_pages (maxRepos : Nat) (oracle : Nat → Option (List Item)) :
    Nat → List Item → List Nat → List Item × List Nat
  | page, repos, seen =>
    if repos.length < maxRepos then
      match oracle page with
      | none => (repos, seen)
      | some items =>
        if items.isEmpty then (repos, seen)
        else
          let step := collect_page maxRepos items repos seen
          if 10 < page + 1 then step
          else search_pages maxRepos oracle (page + 1) step.1 step.2
    else (repos, seen)
termination_by page => 11 - page

/-- The outer `for facet in facets:` loop of
search_repositories_by_files (facets = file_types) and
search_repositories_by_topics (facets = topics): each facet's query
is paginated into the one shared repositories list. -/
def search_facets (maxRepos : Nat) (oracle : String → Nat → Option (List Item)) :
    List String → List Item → List Nat → List Item × List Nat
  | [], repos, seen => (repos, seen)
  | facet :: rest, repos, seen =>
    let step := search_pages maxRepos (oracle facet) 1 repos seen
    search_facets maxRepos oracle rest step.1 step.2

/-- Phase1Collector.search_repositories_by_files: repositories starts
empty; the shared seen-set may already hold ids discovered by other
tasks.  The query string built from file_type, language, stars, date
and fork filters is abstracted into the oracle's facet argument. -/
def search_repositories_by_files (maxRepos : Nat)
    (oracle : String → Nat → Option (List Item)) (file_types : List String)
    (seen : List Nat) : List Item × List Nat :=
  search_facets maxRepos oracle file_types [] seen

/-- Phase1Collector.search_repositories_by_topics: identical loop
structure over the topic list. -/
def search_repositories_by_topics (maxRepos : Nat)
    (oracle : String → Nat → Option (List Item)) (topics : List String)
    (seen : List Nat) : List Item × List Nat :=
  search_facets maxRepos oracle topics [] seen

/-! ## app/phases/phase1.py and phase2.py : thread_safe_request

Both Phase1Collector.thread_safe_request and
Phase2Enricher.thread_safe_request execute, inside a try block,
`from app.utils import make_github_request_optimized`.  The module
app.utils is embedded as the list of names it defines (transcribed
from app/utils.py); a failed lookup is Python's ImportError, which the
surrounding `except Exception` converts into a None return.  Because
the looked-up name might in principle resolve, the would-be function
is a parameter `opt`; the import failure makes it unreachable. -/

def app_utils_defines : List String :=
  ["setup_logging", "rate_limit_handler", "make_github_request",
   "calculate_repository_age_days", "format_file_size",
   "is_repository_active", "extract_owner_from_full_name",
   "extract_repo_name_from_full_name", "sanitize_description",
   "parse_github_datetime", "build_search_query", "print_progress"]

/-- `from app.utils import name`: succeeds exactly when app/utils.py
defines the name. -/
def import_from_app_utils (name : String) : Except String Unit :=
  if name ∈ app_utils_defines then Except.ok ()
  else Except.error ("cannot import name " ++ name)

/-- Phase1Collector.thread_safe_request(url, params): try to import
make_github_request_optimized and call it; any exception is caught
and turned into None.  `opt` stands for whatever the imported
function would be. -/
def phase1_thread_safe_request
    (opt : String → Option (List (String × String)) → Option Resp)
    (url : String) (params : Option (List (String × String))) : Option Resp :=
  match import_from_app_utils "make_github_request_optimized" with
  | Except.error _ => none
  | Except.ok _ => opt url params

/-- Phase2Enricher.thread_safe_request(url): same shape, URL only. -/
def phase2_thread_safe_request (opt : String → Option Resp) (url : String) :
    Option Resp :=
  match import_from_app_utils "make_github_request_optimized" with
  | Except.error _ => none
  | Except.ok _ => opt url

/-! ## app/phases/phase2.py : Phase2Enricher.get_repositories_for_enrichment

The repositories table is a list of rows projected to the columns the
phase-2 SQL touches; created_at and the cutoff are epoch timestamps.
The SELECT's WHERE / ORDER BY / LIMIT clauses are translated to
filter, stable sort, and take. -/

structure Row where
  github_id : Nat
  full_name : String
  stargazers_count : Nat
  language : Option String
  fork : Bool
  created_at : Int
  phase1_completed : Bool
  phase2_completed : Bool
  deriving Repr, DecidableEq

/-- The WHERE clause: phase1_completed = true AND phase2_completed =
false AND stargazers_count >= PHASE2_MIN_STARS AND created_at >=
cutoff_date, plus AND fork = false when PHASE2_SKIP_FORKS. -/
def phase2_where (min_stars : Nat) (cutoff : Int) (skip_forks : Bool) (r : Row) : Bool :=
  r.phase1_completed && !r.phase2_completed &&
    decide (min_stars ≤ r.stargazers_count) && decide (cutoff ≤ r.created_at) &&
    (!skip_forks || !r.fork)

/-- ORDER BY stargazers_count DESC, created_at DESC as a boolean
comparison: `a` may come no later than `b`. -/
def phase2_le (a b : Row) : Bool :=
  decide (b.stargazers_count < a.stargazers_count) ||
    (decide (b.stargazers_count = a.stargazers_count) && decide (b.created_at ≤ a.created_at))

/-- Phase2Enricher.get_repositories_for_enrichment: the SELECT over
the table with WHERE, ORDER BY and LIMIT PHASE2_MAX_REPOS. -/
def get_repositories_for_enrichment (min_stars : Nat) (cutoff : Int)
    (skip_forks : Bool) (max_repos : Nat) (table : List Row) : List Row :=
  ((table.filter (phase2_where min_stars cutoff skip_forks)).mergeSort phase2_le).take
    max_repos

/-! ## app/phases/phase2.py : Phase2Enricher.enrich_repository_worker

The UPDATE statement is modelled as the ordered list of (column,
value) assignments the worker builds.  The four secondary fetches are
inputs: each is an Option, none meaning the fetch returned None so
its fields are omitted.  get_repository_activity can return a dict in
which individual keys are present but NULL, so its embedding keeps
each key group optional with an optional value. -/

inductive Val where
  | vbool (b : Bool)
  | vnat (n : Nat)
  | vint (i : Int)
  | vstr (s : String)
  | vnull
  | vjson (s : String)
  | vtime
  deriving Repr, DecidableEq

def optNatVal : Option Nat → Val
  | none => Val.vnull
  | some n => Val.vnat n

def optStrVal : Option String → Val
  | none => Val.vnull
  | some s => Val.vstr s

/-- Result of get_repository_languages (phase2.py): main language,
per-language byte counts with percentage, and the byte total.
Percentages are embedded as rationals. -/
structure LanguageData where
  main_language : String
  language_stats : List (String × Nat × ℚ)
  total_code_bytes : Nat
  deriving Repr, DecidableEq

/-- Result of get_repository_contributors. -/
structure ContributorData where
  contributors_count : Nat
  top_contributor : Option String
  deriving Repr, DecidableEq

/-- Result of get_repository_activity: each key group is present in
the dict exactly when its sub-response arrived, and its value may
still be None (NULL). -/
structure ActivityData where
  commits_count : Option (Option Nat)
  branches_count : Option (Option Nat)
  releases : Option (Option Nat × Option String)
  deriving Repr, DecidableEq

/-- A JSON rendering of language_stats stands in for json.dumps; only
its presence as a value matters to the claims. -/
def language_stats_json (stats : List (String × Nat × ℚ)) : Val :=
  Val.vjson (String.intercalate "," (stats.map (fun p => p.1)))

/-- The (column, value) assignments contributed by a present
activity dict, in its insertion order: commits_count, then
branches_count, then releases_count and latest_release_tag. -/
def activity_assignments (a : ActivityData) : List (String × Val) :=
  (match a.commits_count with
   | none => []
   | some v => [("commits_count", optNatVal v)]) ++
  (match a.branches_count with
   | none => []
   | some v => [("branches_count", optNatVal v)]) ++
  (match a.releases with
   | none => []
   | some rv => [("releases_count", optNatVal rv.1),
                 ("latest_release_tag", optStrVal rv.2)])

/-- The dict entries contributed by `if language_data:
enrichment_data.update(language_data)`. -/
def language_assignments : Option LanguageData → List (String × Val)
  | none => []
  | some ld => [("main_language", Val.vstr ld.main_language),
                ("language_stats", language_stats_json ld.language_stats),
                ("total_code_bytes", Val.vnat ld.total_code_bytes)]

/-- The dict entries contributed by the contributor fetch. -/
def contributor_assignments : Option ContributorData → List (String × Val)
  | none => []
  | some cd => [("contributors_count", Val.vnat cd.contributors_count),
                ("top_contributor", optStrVal cd.top_contributor)]

/-- The dict entries contributed by the activity fetch. -/
def activity_assignments_opt : Option ActivityData → List (String × Val)
  | none => []
  | some a => activity_assignments a

/-- The dict entries contributed by the readme fetch. -/
def readme_assignments : Option String → List (String × Val)
  | none => []
  | some rc => [("readme_content", Val.vstr rc)]

/-- The enrichment_data dict built by enrich_repository_worker, in
insertion order, with github_id excluded (the worker's
`if field != 'github_id'` guard keeps it out of the SET list). -/
def enrich_data_assignments (language_data : Option LanguageData)
    (contributor_data : Option ContributorData)
    (activity_data : Option ActivityData)
    (readme_content : Option String) : List (String × Val) :=
  language_assignments language_data ++ contributor_assignments contributor_data ++
    activity_assignments_opt activity_data ++ readme_assignments readme_content

/-- The full ordered assignment list of the UPDATE issued by
enrich_repository_worker: the enrichment_data entries, then the
unconditional phase2_completed / phase2_completed_at markers appended
by update_fields.extend. -/
def enrich_update_assignments (language_data : Option LanguageData)
    (contributor_data : Option ContributorData)
    (activity_data : Option ActivityData)
    (readme_content : Option String) : List (String × Val) :=
  enrich_data_assignments language_data contributor_data activity_data readme_content ++
    [("phase2_completed", Val.vbool true), ("phase2_completed_at", Val.vtime)]

def valToBool : Val → Bool
  | Val.vbool b => b
  | _ => false

def valToNat : Val → Nat
  | Val.vnat n => n
  | _ => 0

def valToInt : Val → Int
  | Val.vint i => i
  | Val.vnat n => (n : Int)
  | _ => 0

def valToStr : Val → String
  | Val.vstr s => s
  | _ => ""

/-- Semantics of one SET column = value on the projected row: columns
outside the projection (the enrichment columns) leave the projection
unchanged. -/
def set_column (r : Row) (fv : String × Val) : Row :=
  if fv.1 = "github_id" then { r with github_id := valToNat fv.2 }
  else if fv.1 = "full_name" then { r with full_name := valToStr fv.2 }
  else if fv.1 = "stargazers_count" then { r with stargazers_count := valToNat fv.2 }
  else if fv.1 = "language" then { r with language := some (valToStr fv.2) }
  else if fv.1 = "fork" then { r with fork := valToBool fv.2 }
  else if fv.1 = "created_at" then { r with created_at := valToInt fv.2 }
  else if fv.1 = "phase1_completed" then { r with phase1_completed := valToBool fv.2 }
  else if fv.1 = "phase2_completed" then { r with phase2_completed := valToBool fv.2 }
  else r

/-- Applying the UPDATE's SET list to a row of the table. -/
def apply_update (assignments : List (String × Val)) (r : Row) : Row :=
  assignments.foldl set_column r

/-- The projection of a row to its basic, phase-1-owned columns
(including the phase-1 completion marker). -/
def row_basics (r : Row) :
    Nat × String × Nat × Option String × Bool × Int × Bool :=
  (r.github_id, r.full_name, r.stargazers_count, r.language, r.fork,
    r.created_at, r.phase1_completed)

/-- The columns assigned by the Phase-1 bulk insert
(Repository.extract_all_basic_fields), i.e. the basic fields of an
entity, with the phase-1 completion markers. -/
def basic_columns : List String :=
  ["github_id", "name", "full_name", "description", "html_url", "clone_url",
   "git_url", "ssh_url", "size", "stargazers_count", "watchers_count",
   "forks_count", "open_issues_count", "language", "topics", "has_issues",
   "has_projects", "has_wiki", "has_pages", "has_downloads", "archived",
   "disabled", "fork", "created_at", "updated_at", "pushed_at", "owner_login",
   "owner_id", "owner_type", "owner_html_url", "owner_avatar_url",
   "default_branch", "license_key", "license_name", "visibility", "private",
   "allow_forking", "is_template", "web_commit_signoff_required",
   "phase1_completed", "phase1_completed_at"]

/-- The enrichment columns an UPDATE from the worker may set, plus
the two phase-2 completion markers. -/
def enrichment_columns : List String :=
  ["main_language", "language_stats", "total_code_bytes",
   "contributors_count", "top_contributor", "commits_count",
   "branches_count", "releases_count", "latest_release_tag",
   "readme_content", "phase2_completed", "phase2_completed_at"]

/-! ## app/phases/phase2.py : Phase2Enricher.get_repository_languages

The /languages response body is the ordered association list parsed
from the JSON object (byte counts per language name).  Python's
round(x, 2) is round-half-to-even at two decimals; the arithmetic is
embedded over the rationals. -/

/-- Round-half-to-even to an integer, the rounding used by Python's
built-in round. -/
def round_half_even (q : ℚ) : ℤ :=
  let f := ⌊q⌋
  let frac := q - (f : ℚ)
  if frac < 1 / 2 then f
  else if 1 / 2 < frac then f + 1
  else if f % 2 = 0 then f else f + 1

/-- round(x, 2). -/
def py_round2 (q : ℚ) : ℚ := ((round_half_even (q * 100) : ℤ) : ℚ) / 100

/-- Python's max(languages.items(), key=lambda x: x[1]): the first
pair attaining the maximal byte count (replacement only on a strictly
greater value). -/
def max_by_bytes : List (String × Nat) → Option (String × Nat)
  | [] => none
  | x :: xs => some (xs.foldl (fun acc y => if acc.2 < y.2 then y else acc) x)

/-- Phase2Enricher.get_repository_languages, given the parsed
response (none: thread_safe_request returned no response).  An empty
dict returns None via `if not languages`; a nonempty dict whose byte
counts sum to 0 raises ZeroDivisionError in the percentage loop,
which the surrounding except converts to None. -/
def get_repository_languages (response : Option (List (String × Nat))) :
    Option LanguageData :=
  match response with
  | none => none
  | some langs =>
    if langs.isEmpty then none
    else
      let total : ℕ := (langs.map (fun p => p.2)).sum
      if total = 0 then none
      else
        match max_by_bytes langs with
        | none => none
        | some m =>
          some { main_language := m.1,
                 language_stats :=
                   langs.map (fun p =>
                     (p.1, p.2, py_round2 (((p.2 : ℚ) / (total : ℚ)) * 100))),
                 total_code_bytes := total }

/-! ## Auxiliary definitions used by the statements below -/

/-- An attempt outcome that falls into make_github_request's generic
retry branch: a network-level exception, or a response whose status
is none of 200, 403, 404. -/
def retryable_failure : Attempt → Bool
  | Attempt.exn => true
  | Attempt.ok r =>
      !(decide (r.status = 200) || decide (r.status = 403) || decide (r.status = 404))

/-- The external identifiers carried by a list of search items. -/
def ids (l : List Item) : List Nat := l.filterMap (fun it => it.id)

/-- A scripted API that always answers 429 with X-RateLimit-Remaining
"0" (quota exhausted) and a reset timestamp. -/
def oracle429 : Nat → Attempt := fun _ => Attempt.ok ⟨429, "0", some 1000⟩

/-- A scripted API: one quota-exhausted 403 (reset at t = 100), then
success. -/
def oracle403 : Nat → Attempt := fun k =>
  if k = 0 then Attempt.ok ⟨403, "0", some 100⟩ else Attempt.ok ⟨200, "1", none⟩

/-- A scripted API that always fails with a 500. -/
def oracle500 : Nat → Attempt := fun _ => Attempt.ok ⟨500, "1", none⟩

/-- A credential pool whose every token is exhausted: both inactive,
one of them even showing stale positive remaining quota. -/
def exhaustedPool : List TokenStats := [⟨0, 100, false⟩, ⟨7, 50, false⟩]

/-- A credential pool with active and inactive tokens; the second
active token has the most remaining quota. -/
def mixedPool : List TokenStats := [⟨10, 100, true⟩, ⟨50, 50, true⟩, ⟨90, 7, false⟩]

/-- The language-bytes example from the specification. -/
def exampleLangs : List (String × Nat) := [("A", 300), ("B", 100)]

/-! ## Theorems -/

/-- Claim C1: For every URL and parameter set,
Phase1Collector.thread_safe_request and
Phase2Enricher.thread_safe_request return None: both import the name
make_github_request_optimized from app.utils, which is defined
nowhere in the repository (app.utils defines only
make_github_request), the ImportError is caught and converted to
None, so no discovery search or enrichment sub-fetch ever obtains a
response through these methods.  `opt1`/`opt2` stand for whatever
function the import would have produced. -/
theorem C1_thread_safe_request_returns_none
    (opt1 : String → Option (List (String × String)) → Option Resp)
    (opt2 : String → Option Resp)
    (url1 url2 : String) (params : Option (List (String × String))) :
    phase1_thread_safe_request opt1 url1 params = none ∧
    phase2_thread_safe_request opt2 url2 = none :=
  ⟨rfl, rfl⟩

/-- Helper for C9: when every attempt in range hits the generic retry
branch, the loop performs one backoff of 2 ^ attempt between
consecutive attempts and finally returns None. -/
theorem make_github_request_go_all_retryable (oracle : Nat → Attempt) (now : Int) :
    ∀ fuel attempt,
      (∀ i, attempt ≤ i → i < attempt + fuel → retryable_failure (oracle i) = true) →
      make_github_request_go oracle now attempt fuel =
        (none, (List.range' attempt (fuel - 1)).map (fun i => Event.backoff (2 ^ i))) := by
  intro fuel
  induction fuel with
  | zero => intro attempt _; rfl
  | succ n ih =>
    intro attempt h
    have hA : retryable_failure (oracle attempt) = true :=
      h attempt le_rfl (by omega)
    have hrest : make_github_request_go oracle now (attempt + 1) n =
        (none, (List.range' (attempt + 1) (n - 1)).map (fun i => Event.backoff (2 ^ i))) :=
      ih (attempt + 1) (fun i h1 h2 => h i (by omega) (by omega))
    cases hor : oracle attempt with
    | exn =>
      simp only [make_github_request_go, hor]
      cases n with
      | zero => rfl
      | succ m =>
        rw [if_pos (Nat.succ_pos m)]
        simp [hrest, List.range'_succ]
    | ok r =>
      rw [hor] at hA
      simp only [retryable_failure, Bool.not_eq_true', Bool.or_eq_false_iff,
        decide_eq_false_iff_not] at hA
      obtain ⟨⟨h200, h403⟩, h404⟩ := hA
      simp only [make_github_request_go, hor]
      rw [if_neg h200, if_neg h403, if_neg h404]
      cases n with
      | zero => rfl
      | succ m =>
        rw [if_pos (Nat.succ_pos m)]
        simp [hrest, List.range'_succ]

/-- Claim C9: for every response whose status is not 200, 403 or 404,
and for every network-level exception, make_github_request retries
with exponential backoff (delay 2 ^ attempt, doubling per attempt) up
to the fixed ceiling max_retries (default 3 attempts) and after the
ceiling returns None — it neither raises nor loops forever. -/
theorem C9_retry_backoff_then_none (oracle : Nat → Attempt) (now : Int) (m : Nat)
    (h : ∀ i, i < m → retryable_failure (oracle i) = true) :
    make_github_request oracle now m =
      (none, (List.range (m - 1)).map (fun i => Event.backoff (2 ^ i))) := by
  have := make_github_request_go_all_retryable oracle now m 0
    (fun i _ h2 => h i (by omega))
  simpa [make_github_request, List.range_eq_range'] using this

/-- Witness for C9 at the default ceiling of 3 attempts and an API
that always answers 500: two backoffs of 1 and 2 seconds, then None. -/
theorem C9_retry_backoff_then_none_witness :
    make_github_request oracle500 0 3 =
      (none, (List.range 2).map (fun i => Event.backoff (2 ^ i))) :=
  C9_retry_backoff_then_none oracle500 0 3 (by decide)

/-- Counterexample to claim C8 as stated: a 429 response carrying
X-RateLimit-Remaining "0" (and a reset timestamp of 1000) is not
routed through rate_limit_handler at all — make_github_request only
tests status 403.  Under a scripted API always answering such a 429,
the call performs the generic exponential backoffs (1 s and 2 s, no
sleep tied to the reset timestamp) and surfaces the exhaustion to the
caller as None. -/
theorem C8_counterexample_429_not_handled :
    (make_github_request_default oracle429 0).1 = none ∧
    (make_github_request_default oracle429 0).2 = [Event.backoff 1, Event.backoff 2] :=
  ⟨rfl, rfl⟩

/-- Claim C8 (amended): on a 403 response carrying the
quota-exhausted signal (X-RateLimit-Remaining "0"), an attempt of
make_github_request does not back off exponentially: it sleeps
max(reset - now, 60) seconds — at least until the header-announced
reset timestamp has passed — and then transparently continues with
the retry of the same logical request (whose attempts, however, draw
on the same max_retries budget); 429 responses take the generic
backoff path instead. -/
theorem C8_quota_403_waits_until_reset (oracle : Nat → Attempt) (now : Int)
    (attempt fuel : Nat) (r : Resp) (t : Int)
    (hor : oracle attempt = Attempt.ok r) (h403 : r.status = 403)
    (hrem : r.remaining = "0") (hres : r.reset = some t) :
    make_github_request_go oracle now attempt (fuel + 1) =
      ((make_github_request_go oracle now (attempt + 1) fuel).1,
        Event.sleepReset (max (t - now) 60) ::
          (make_github_request_go oracle now (attempt + 1) fuel).2) ∧
    t - now ≤ max (t - now) 60 := by
  refine ⟨?_, le_max_left _ _⟩
  simp only [make_github_request_go, hor]
  rw [if_neg (by omega : ¬r.status = 200), if_pos h403]
  simp [rate_limit_handler, h403, hrem, hres]

/-- Witness for the amended C8: one quota-exhausted 403 with reset
timestamp 100 at time 0, then success: the attempt sleeps
max(100 - 0, 60) = 100 seconds and the request is retried. -/
theorem C8_quota_403_waits_until_reset_witness :
    make_github_request_go oracle403 0 0 3 =
      ((make_github_request_go oracle403 0 1 2).1,
        Event.sleepReset (max (100 - 0) 60) ::
          (make_github_request_go oracle403 0 1 2).2) ∧
    (100 : Int) - 0 ≤ max (100 - 0) 60 :=
  C8_quota_403_waits_until_reset oracle403 0 0 2 ⟨403, "0", some 100⟩ 100 rfl rfl rfl rfl

/-- Helper: the selection loop keeps accumulator (None, br) when no
remaining element is active with quota above br. -/
theorem best_token_go_none_of_all_fail (l : List TokenStats) :
    ∀ i br, (∀ s ∈ l, ¬(s.active = true ∧ br < s.remaining)) →
      best_token_go i l none br = (none, br) := by
  induction l with
  | nil => intro i br _; rfl
  | cons s rest ih =>
    intro i br h
    have hs := h s (by simp)
    simp only [best_token_go]
    rw [if_neg hs]
    exact ih (i + 1) br (fun x hx => h x (by simp [hx]))

/-- Helper: best_remaining never decreases along the selection loop. -/
theorem best_token_go_mono (l : List TokenStats) :
    ∀ i bi br, br ≤ (best_token_go i l bi br).2 := by
  induction l with
  | nil => intro i bi br; exact le_rfl
  | cons s rest ih =>
    intro i bi br
    simp only [best_token_go]
    by_cases hc : s.active = true ∧ br < s.remaining
    · rw [if_pos hc]
      exact le_trans (le_of_lt hc.2) (ih (i + 1) (some i) s.remaining)
    · rw [if_neg hc]
      exact ih (i + 1) bi br

/-- Helper: the selection loop's final best_remaining dominates the
quota of every active token it scanned. -/
theorem best_token_go_bound (l : List TokenStats) :
    ∀ i bi br s, s ∈ l → s.active = true →
      s.remaining ≤ (best_token_go i l bi br).2 := by
  induction l with
  | nil => intro i bi br s hs _; exact absurd hs (List.not_mem_nil s)
  | cons x rest ih =>
    intro i bi br s hs hact
    simp only [best_token_go]
    rcases List.mem_cons.mp hs with rfl | hmem
    · by_cases hc : s.active = true ∧ br < s.remaining
      · rw [if_pos hc]
        exact best_token_go_mono rest (i + 1) (some i) s.remaining
      · rw [if_neg hc]
        have : s.remaining ≤ br := by
          by_contra hlt
          exact hc ⟨hact, by omega⟩
        exact le_trans this (best_token_go_mono rest (i + 1) bi br)
    · by_cases hc : x.active = true ∧ br < x.remaining
      · rw [if_pos hc]
        exact ih (i + 1) (some i) x.remaining s hmem hact
      · rw [if_neg hc]
        exact ih (i + 1) bi br s hmem hact

/-- Helper: once the accumulator holds an index it never reverts to
None. -/
theorem best_token_go_some_stable (l : List TokenStats) :
    ∀ i j br, (best_token_go i l (some j) br).1 ≠ none := by
  induction l with
  | nil => intro i j br h; exact Option.noConfusion h
  | cons s rest ih =>
    intro i j br
    simp only [best_token_go]
    by_cases hc : s.active = true ∧ br < s.remaining
    · rw [if_pos hc]; exact ih (i + 1) i s.remaining
    · rw [if_neg hc]; exact ih (i + 1) j br

/-- Helper: a None selection outcome means every scanned token failed
the active-and-quota test. -/
theorem best_token_go_none_all_fail (l : List TokenStats) :
    ∀ i br, (best_token_go i l none br).1 = none →
      ∀ s ∈ l, ¬(s.active = true ∧ br < s.remaining) := by
  induction l with
  | nil => intro i br _ s hs; exact absurd hs (List.not_mem_nil s)
  | cons x rest ih
  =>
    intro i br h s hs
    simp only [best_token_go] at h
    by_cases hc : x.active = true ∧ br < x.remaining
    · rw [if_pos hc] at h
      exact absurd h (best_token_go_some_stable rest (i + 1) i x.remaining)
    · rw [if_neg hc] at h
      rcases List.mem_cons.mp hs with rfl | hmem
      · exact hc
      · exact ih (i + 1) br h s hmem

/-- The invariant carried by the selection accumulator: a selected
index is in bounds, names an active token, and best_remaining equals
that token's quota. -/
def good_acc (stats : List TokenStats) : Option Nat × Nat → Prop
  | (none, _) => True
  | (some i, br) => ∃ h : i < stats.length,
      (stats.get ⟨i, h⟩).active = true ∧ (stats.get ⟨i, h⟩).remaining = br

/-- Helper: the selection loop preserves the accumulator invariant
while scanning the suffix stats.drop i. -/
theorem best_token_go_good (stats : List TokenStats) :
    ∀ l i bi br, stats.drop i = l → good_acc stats (bi, br) →
      good_acc stats (best_token_go i l bi br) := by
  intro l
  induction l with
  | nil => intro i bi br _ hg; exact hg
  | cons s rest ih =>
    intro i bi br hdrop hg
    have hi : i < stats.length := by
      have := congrArg List.length hdrop
      simp [List.length_drop] at this
      omega
    have hcons : stats.drop i = stats.get ⟨i, hi⟩ :: stats.drop (i + 1) := by
      rw [List.get_eq_getElem]
      exact List.drop_eq_getElem_cons hi
    rw [hdrop] at hcons
    have hs : stats.get ⟨i, hi⟩ = s := (List.cons.injEq .. ▸ hcons).1.symm
    have hrest : stats.drop (i + 1) = rest := ((List.cons.injEq ..).mp hcons).2.symm
    simp only [best_token_go]
    by_cases hc : s.active = true ∧ br < s.remaining
    · rw [if_pos hc]
      refine ih (i + 1) (some i) s.remaining hrest ⟨hi, ?_, ?_⟩
      · rw [hs]; exact hc.1
      · rw [hs]
    · rw [if_neg hc]
      exact ih (i + 1) bi br hrest hg

/-- Claim C2 (the behaviour the specification demands fails in the
code): when no credential is active with positive remaining quota,
TokenManager.get_best_token calls _wait_for_reset and then calls
itself recursively while still holding the non-reentrant
threading.Lock it acquired on entry, so the inner lock acquisition
blocks forever and no credential is ever returned to the caller. -/
theorem C2_all_exhausted_blocks_forever (now : Int) (stats : List TokenStats)
    (hne : stats ≠ [])
    (h : ∀ s ∈ stats, ¬(s.active = true ∧ 0 < s.remaining)) :
    get_best_token now stats = GetBestTokenResult.deadlock := by
  have hsel : best_token_index stats = (none, 0) :=
    best_token_go_none_of_all_fail stats 0 0 h
  have hempty : stats.isEmpty = false := by
    cases stats with
    | nil => exact absurd rfl hne
    | cons a l => rfl
  unfold get_best_token
  rw [get_best_token_go]
  simp only [Bool.false_eq_true, if_false, hempty, hsel]
  rw [get_best_token_go]
  simp

/-- Witness for C2 on a concrete exhausted pool of two inactive
credentials: the call deadlocks instead of returning one. -/
theorem C2_all_exhausted_blocks_forever_witness :
    exhaustedPool ≠ [] ∧
    (∀ s ∈ exhaustedPool, ¬(s.active = true ∧ 0 < s.remaining)) ∧
    get_best_token 0 exhaustedPool = GetBestTokenResult.deadlock :=
  ⟨by decide, by decide,
    C2_all_exhausted_blocks_forever 0 exhaustedPool (by decide) (by decide)⟩

/-- Claim C7: whenever at least one credential is active with
positive remaining quota, TokenManager.get_best_token returns an
active credential whose remaining quota is maximal among all active
credentials; it never returns an inactive credential. -/
theorem C7_returns_max_active (now : Int) (stats : List TokenStats)
    (h : ∃ s ∈ stats, s.active = true ∧ 0 < s.remaining) :
    ∃ i, ∃ hi : i < stats.length,
      get_best_token now stats = GetBestTokenResult.token i ∧
      (stats.get ⟨i, hi⟩).active = true ∧
      ∀ s ∈ stats, s.active = true →
        s.remaining ≤ (stats.get ⟨i, hi⟩).remaining := by
  obtain ⟨s0, hs0, hact0, hrem0⟩ := h
  have hempty : stats.isEmpty = false := by
    cases stats with
    | nil => exact absurd hs0 (List.not_mem_nil s0)
    | cons a l => rfl
  cases hsel : (best_token_index stats).1 with
  | none =>
    exact absurd ⟨hact0, hrem0⟩
      (best_token_go_none_all_fail stats 0 0 hsel s0 hs0)
  | some i =>
    have hgood : good_acc stats (best_token_index stats) :=
      best_token_go_good stats stats 0 none 0 rfl trivial
    rw [show best_token_index stats = (some i, (best_token_index stats).2) from
      (Prod.ext hsel rfl)] at hgood
    obtain ⟨hi, hact, hrem⟩ := hgood
    refine ⟨i, hi, ?_, hact, ?_⟩
    · unfold get_best_token
      rw [get_best_token_go]
      simp only [Bool.false_eq_true, if_false, hempty, hsel]
    · intro s hs hsact
      rw [hrem]
      exact best_token_go_bound stats 0 none 0 s hs hsact

/-- Witness for C7 on a concrete mixed pool: index 1 (50 requests
remaining) is selected over the weaker active token and over the
inactive token showing more quota. -/
theorem C7_returns_max_active_witness :
    (∃ s ∈ mixedPool, s.active = true ∧ 0 < s.remaining) ∧
    ∃ i, ∃ hi : i < mixedPool.length,
      get_best_token 0 mixedPool = GetBestTokenResult.token i ∧
      (mixedPool.get ⟨i, hi⟩).active = true ∧
      ∀ s ∈ mixedPool, s.active = true →
        s.remaining ≤ (mixedPool.get ⟨i, hi⟩).remaining :=
  ⟨⟨⟨10, 100, true⟩, by decide⟩, C7_returns_max_active 0 mixedPool ⟨⟨10, 100, true⟩, by decide⟩⟩

/-- The invariant tying a task's collected repositories to the
shared seen-set: every collected item carries an id that is already
recorded in the seen-set, and no id occurs twice. -/
def inv_rs (repos : List Item) (seen : List Nat) : Prop :=
  (∀ it ∈ repos, ∃ i, it.id = some i ∧ i ∈ seen) ∧ (ids repos).Nodup

/-- Helper: processing one page never pushes the collection past the
ceiling, provided it was strictly below the ceiling on entry (which
the enclosing while-loop guarantees). -/
theorem collect_page_length (maxRepos : Nat) :
    ∀ items repos seen, repos.length < maxRepos →
      (collect_page maxRepos items repos seen).1.length ≤ maxRepos := by
  intro items
  induction items with
  | nil => intro repos seen h; exact le_of_lt h
  | cons item rest ih =>
    intro repos seen h
    cases item with
    | mk oid =>
      cases oid with
      | none => exact ih repos seen h
      | some repo_id =>
        simp only [collect_page]
        by_cases h0 : repo_id = 0
        · rw [if_pos h0]; exact ih repos seen h
        · rw [if_neg h0]
          by_cases hmem : repo_id ∈ seen
          · simp only [add_repository_safe, if_pos hmem]
            exact ih repos seen h
          · simp only [add_repository_safe, if_neg hmem]
            by_cases hfull : maxRepos ≤ (repos ++ [Item.mk (some repo_id)]).length
            · rw [if_pos hfull]
              show (repos ++ [Item.mk (some repo_id)]).length ≤ maxRepos
              simp only [List.length_append, List.length_singleton]
              omega
            · rw [if_neg hfull]
              exact ih _ _ (by omega)

/-- Helper: processing one page only grows the seen-set. -/
theorem collect_page_seen_mono (maxRepos : Nat) :
    ∀ items repos seen x, x ∈ seen →
      x ∈ (collect_page maxRepos items repos seen).2 := by
  intro items
  induction items with
  | nil => intro repos seen x hx; exact hx
  | cons item rest ih =>
    intro repos seen x hx
    cases item with
    | mk oid =>
      cases oid with
      | none => exact ih repos seen x hx
      | some repo_id =>
        simp only [collect_page]
        by_cases h0 : repo_id = 0
        · rw [if_pos h0]; exact ih repos seen x hx
        · rw [if_neg h0]
          by_cases hmem : repo_id ∈ seen
          · simp only [add_repository_safe, if_pos hmem]
            exact ih repos seen x hx
          · simp only [add_repository_safe, if_neg hmem]
            by_cases hfull : maxRepos ≤ (repos ++ [Item.mk (some repo_id)]).length
            · rw [if_pos hfull]
              exact List.mem_cons_of_mem _ hx
            · rw [if_neg hfull]
              exact ih _ _ x (List.mem_cons_of_mem _ hx)

/-- Helper: processing one page preserves the invariant — the
check-and-insert against the seen-set keeps collected ids unique. -/
theorem collect_page_inv (maxRepos : Nat) :
    ∀ items repos seen, inv_rs repos seen →
      inv_rs (collect_page maxRepos items repos seen).1
        (collect_page maxRepos items repos seen).2 := by
  intro items
  induction items with
  | nil => intro repos seen h; exact h
  | cons item rest ih =>
    intro repos seen h
    cases item with
    | mk oid =>
      cases oid with
      | none => exact ih repos seen h
      | some repo_id =>
        simp only [collect_page]
        by_cases h0 : repo_id = 0
        · rw [if_pos h0]; exact ih repos seen h
        · rw [if_neg h0]
          by_cases hmem : repo_id ∈ seen
          · simp only [add_repository_safe, if_pos hmem]
            exact ih repos seen h
          · simp only [add_repository_safe, if_neg hmem]
            have hinv' : inv_rs (repos ++ [Item.mk (some repo_id)]) (repo_id :: seen) := by
              obtain ⟨hin, hnd⟩ := h
              constructor
              · intro it hit
                rcases List.mem_append.mp hit with hmem1 | hmem2
                · obtain ⟨i, hi1, hi2⟩ := hin it hmem1
                  exact ⟨i, hi1, List.mem_cons_of_mem _ hi2⟩
                · have heq : it = Item.mk (some repo_id) := by simpa using hmem2
                  exact ⟨repo_id, by rw [heq], List.mem_cons_self _ _⟩
              · have hnotin : repo_id ∉ ids repos := by
                  intro hmemids
                  obtain ⟨it, hit, hid⟩ := List.mem_filterMap.mp hmemids
                  obtain ⟨i, hi1, hi2⟩ := hin it hit
                  rw [hi1] at hid
                  exact hmem (Option.some_injective _ hid ▸ hi2)
                simp only [ids, List.filterMap_append] at *
                simp [List.nodup_append, hnd, hnotin]
            by_cases hfull : maxRepos ≤ (repos ++ [Item.mk (some repo_id)]).length
            · rw [if_pos hfull]; exact hinv'
            · rw [if_neg hfull]; exact ih _ _ hinv'

/-- Helper: the pagination loop keeps the collection at or below the
ceiling and preserves the invariant. -/
theorem search_pages_spec (maxRepos : Nat) (oracle : Nat → Option (List Item)) :
    ∀ page repos seen, repos.length ≤ maxRepos → inv_rs repos seen →
      (search_pages maxRepos oracle page repos seen).1.length ≤ maxRepos ∧
      inv_rs (search_pages maxRepos oracle page repos seen).1
        (search_pages maxRepos oracle page repos seen).2 := by
  intro page repos seen
  induction page, repos, seen using search_pages.induct maxRepos oracle with
  | case1 page repos seen hlt hor =>
    intro hlen hinv
    rw [search_pages]
    simp only [if_pos hlt, hor]
    exact ⟨hlen, hinv⟩
  | case2 page repos seen hlt items hor hempty =>
    intro hlen hinv
    rw [search_pages]
    simp only [if_pos hlt, hor, if_pos hempty]
    exact ⟨hlen, hinv⟩
  | case3 page repos seen hlt items hor hempty hpage =>
    intro hlen hinv
    rw [search_pages]
    simp only [if_pos hlt, hor, if_neg hempty, if_pos hpage]
    exact ⟨collect_page_length maxRepos items repos seen hlt,
      collect_page_inv maxRepos items repos seen hinv⟩
  | case4 page repos seen hlt items hor hempty step hpage ih =>
    intro hlen hinv
    rw [search_pages]
    simp only [if_pos hlt, hor, if_neg hempty, if_neg hpage]
    exact ih (collect_page_length maxRepos items repos seen hlt)
      (collect_page_inv maxRepos items repos seen hinv)
  | case5 page repos seen hge =>
    intro hlen hinv
    rw [search_pages]
    simp only [if_neg hge]
    exact ⟨hlen, hinv⟩

/-- Helper: the facet loop shared by both search functions keeps the
collection bounded and duplicate-free. -/
theorem search_facets_spec (maxRepos : Nat) (oracle : String → Nat → Option (List Item)) :
    ∀ facets repos seen, repos.length ≤ maxRepos → inv_rs repos seen →
      (search_facets maxRepos oracle facets repos seen).1.length ≤ maxRepos ∧
      inv_rs (search_facets maxRepos oracle facets repos seen).1
        (search_facets maxRepos oracle facets repos seen).2 := by
  intro facets
  induction facets with
  | nil => intro repos seen h1 h2; exact ⟨h1, h2⟩
  | cons f rest ih =>
    intro repos seen h1 h2
    simp only [search_facets]
    have hstep := search_pages_spec maxRepos (oracle f) 1 repos seen h1 h2
    exact ih _ _ hstep.1 hstep.2

/-- Claim C3: for every discovery task — one call to
search_repositories_by_files or search_repositories_by_topics, under
any API behaviour and any prior content of the shared seen-set — the
returned list contains at most PHASE1_MAX_REPOS (here maxRepos)
entries and no repository identifier appears twice in it, because
each id passes the check-and-insert of add_repository_safe before
being appended and counted toward the ceiling. -/
theorem C3_task_output_bounded_and_duplicate_free (maxRepos : Nat)
    (oracleF oracleT : String → Nat → Option (List Item))
    (file_types topics : List String) (seenF seenT : List Nat) :
    ((search_repositories_by_files maxRepos oracleF file_types seenF).1.length ≤ maxRepos ∧
      (ids (search_repositories_by_files maxRepos oracleF file_types seenF).1).Nodup) ∧
    ((search_repositories_by_topics maxRepos oracleT topics seenT).1.length ≤ maxRepos ∧
      (ids (search_repositories_by_topics maxRepos oracleT topics seenT).1).Nodup) := by
  have hstart : ∀ seen : List Nat, inv_rs [] seen := by
    intro seen
    exact ⟨by intro it hit; exact absurd hit (List.not_mem_nil it), List.nodup_nil⟩
  have h1 := search_facets_spec maxRepos oracleF file_types [] seenF
    (by simp) (hstart seenF)
  have h2 := search_facets_spec maxRepos oracleT topics [] seenT
    (by simp) (hstart seenT)
  exact ⟨⟨h1.1, h1.2.2⟩, ⟨h2.1, h2.2.2⟩⟩

/-- Helper: setting the phase-2 marker column flips exactly that
column of the projected row. -/
theorem set_column_phase2_marker (r : Row) (b : Bool) :
    set_column r ("phase2_completed", Val.vbool b) = { r with phase2_completed := b } :=
  rfl

/-- Helper: applying a SET list that ends with the two phase-2
completion markers leaves the row with phase2_completed = true. -/
theorem apply_update_markers (xs : List (String × Val)) (r : Row) :
    (apply_update
      (xs ++ [("phase2_completed", Val.vbool true), ("phase2_completed_at", Val.vtime)])
      r).phase2_completed = true := by
  unfold apply_update
  rw [List.foldl_append]
  rfl

/-- Helper: a completed row always fails the phase-2 candidate
predicate. -/
theorem phase2_where_false_of_completed (min_stars : Nat) (cutoff : Int)
    (skip_forks : Bool) (r : Row) (h : r.phase2_completed = true) :
    phase2_where min_stars cutoff skip_forks r = false := by
  simp [phase2_where, h]

/-- Claim C4: for every entity processed by enrich_repository_worker
— whatever the four secondary fetches return, including all four
returning nothing — the single UPDATE sets phase2_completed (to true)
together with phase2_completed_at; with all fetches empty the SET
list is exactly the two markers; and the updated row fails the
phase-2 selection predicate, so the entity is not re-selected in
later cycles. -/
theorem C4_completion_markers_always_written (ld : Option LanguageData)
    (cd : Option ContributorData) (ad : Option ActivityData) (rc : Option String)
    (r : Row) (min_stars : Nat) (cutoff : Int) (skip_forks : Bool) :
    ("phase2_completed", Val.vbool true) ∈ enrich_update_assignments ld cd ad rc ∧
    ("phase2_completed_at", Val.vtime) ∈ enrich_update_assignments ld cd ad rc ∧
    enrich_update_assignments none none none none =
      [("phase2_completed", Val.vbool true), ("phase2_completed_at", Val.vtime)] ∧
    (apply_update (enrich_update_assignments ld cd ad rc) r).phase2_completed = true ∧
    phase2_where min_stars cutoff skip_forks
      (apply_update (enrich_update_assignments ld cd ad rc) r) = false := by
  refine ⟨?_, ?_, rfl, ?_, ?_⟩
  · simp [enrich_update_assignments]
  · simp [enrich_update_assignments]
  · exact apply_update_markers _ r
  · exact phase2_where_false_of_completed _ _ _ _ (apply_update_markers _ r)

/-- Helper: every column name in the worker's SET list is one of the
enrichment columns or a phase-2 marker. -/
theorem enrich_update_names_allowed (ld : Option LanguageData)
    (cd : Option ContributorData) (ad : Option ActivityData) (rc : Option String) :
    (enrich_update_assignments ld cd ad rc).map Prod.fst ⊆ enrichment_columns := by
  rcases ld with _ | l <;> rcases cd with _ | c <;> rcases rc with _ | s <;>
    rcases ad with _ | ⟨(_ | v1), (_ | v2), (_ | v3)⟩ <;>
    simp only [enrich_update_assignments, enrich_data_assignments,
      language_assignments, contributor_assignments, activity_assignments_opt,
      activity_assignments, readme_assignments, List.map_append, List.map_cons,
      List.map_nil, List.nil_append, List.append_nil, List.cons_append] <;>
    decide

/-- Helper: no column name in the worker's SET list is a basic
column. -/
theorem enrich_update_names_not_basic (ld : Option LanguageData)
    (cd : Option ContributorData) (ad : Option ActivityData) (rc : Option String) :
    ∀ fv ∈ enrich_update_assignments ld cd ad rc, fv.1 ∉ basic_columns := by
  intro fv hfv hbasic
  have hname : fv.1 ∈ enrichment_columns :=
    enrich_update_names_allowed ld cd ad rc (List.mem_map_of_mem Prod.fst hfv)
  have hdisj : ∀ name ∈ enrichment_columns, name ∉ basic_columns := by decide
  exact hdisj fv.1 hname hbasic

/-- Helper: one SET step whose column is not basic leaves the basic
projection unchanged. -/
theorem set_column_basics (r : Row) (fv : String × Val) (h : fv.1 ∉ basic_columns) :
    row_basics (set_column r fv) = row_basics r := by
  have h1 : ¬fv.1 = "github_id" := fun he => h (by rw [he]; decide)
  have h2 : ¬fv.1 = "full_name" := fun he => h (by rw [he]; decide)
  have h3 : ¬fv.1 = "stargazers_count" := fun he => h (by rw [he]; decide)
  have h4 : ¬fv.1 = "language" := fun he => h (by rw [he]; decide)
  have h5 : ¬fv.1 = "fork" := fun he => h (by rw [he]; decide)
  have h6 : ¬fv.1 = "created_at" := fun he => h (by rw [he]; decide)
  have h7 : ¬fv.1 = "phase1_completed" := fun he => h (by rw [he]; decide)
  unfold set_column
  rw [if_neg h1, if_neg h2, if_neg h3, if_neg h4, if_neg h5, if_neg h6, if_neg h7]
  by_cases h8 : fv.1 = "phase2_completed"
  · rw [if_pos h8]; rfl
  · rw [if_neg h8]

/-- Helper: a SET list free of basic columns leaves the basic
projection of the row unchanged. -/
theorem apply_update_basics (asgn : List (String × Val)) :
    ∀ r : Row, (∀ fv ∈ asgn, fv.1 ∉ basic_columns) →
      row_basics (apply_update asgn r) = row_basics r := by
  induction asgn with
  | nil => intro r _; rfl
  | cons fv rest ih =>
    intro r h
    have hstep := set_column_basics r fv (h fv (List.mem_cons_self fv rest))
    have htail := ih (set_column r fv)
      (fun x hx => h x (List.mem_cons_of_mem fv hx))
    calc row_basics (apply_update (fv :: rest) r)
        = row_basics (apply_update rest (set_column r fv)) := rfl
      _ = row_basics (set_column r fv) := htail
      _ = row_basics r := hstep

/-- Claim C5: the detail-phase UPDATE issued by
enrich_repository_worker assigns only the enrichment fields actually
produced plus the two phase-2 completion markers; it never assigns
phase1_completed or any basic field, so applying it to a row leaves
phase1_completed and every basic column (github_id, full_name,
stargazers_count, language, fork, created_at) unchanged. -/
theorem C5_update_touches_no_basic_field (ld : Option LanguageData)
    (cd : Option ContributorData) (ad : Option ActivityData) (rc : Option String)
    (r : Row) :
    (enrich_update_assignments ld cd ad rc).map Prod.fst ⊆ enrichment_columns ∧
    (∀ fv ∈ enrich_update_assignments ld cd ad rc, fv.1 ∉ basic_columns) ∧
    ("phase1_completed", Val.vbool false) ∉ enrich_update_assignments ld cd ad rc ∧
    row_basics (apply_update (enrich_update_assignments ld cd ad rc) r) =
      row_basics r ∧
    (apply_update (enrich_update_assignments ld cd ad rc) r).phase1_completed =
      r.phase1_completed := by
  have hnb := enrich_update_names_not_basic ld cd ad rc
  have hbasics := apply_update_basics (enrich_update_assignments ld cd ad rc) r hnb
  refine ⟨enrich_update_names_allowed ld cd ad rc, hnb, ?_, hbasics, ?_⟩
  · intro hmem
    exact hnb _ hmem (by decide)
  · exact congrArg (fun p => p.2.2.2.2.2.2) hbasics

/-- Helper: the ORDER BY comparison is transitive. -/
theorem phase2_le_trans (a b c : Row) (hab : phase2_le a b = true)
    (hbc : phase2_le b c = true) : phase2_le a c = true := by
  simp only [phase2_le, Bool.or_eq_true, Bool.and_eq_true, decide_eq_true_eq] at *
  rcases hab with h1 | ⟨h1, h1'⟩ <;> rcases hbc with h2 | ⟨h2, h2'⟩
  · exact Or.inl (by omega)
  · exact Or.inl (by omega)
  · exact Or.inl (by omega)
  · exact Or.inr ⟨by omega, by omega⟩

/-- Helper: the ORDER BY comparison is total. -/
theorem phase2_le_total (a b : Row) :
    (phase2_le a b || phase2_le b a) = true := by
  simp only [phase2_le, Bool.or_eq_true, Bool.and_eq_true, decide_eq_true_eq]
  omega

/-- Claim C6: get_repositories_for_enrichment selects only rows with
phase1_completed true, phase2_completed false, star count at least
PHASE2_MIN_STARS, creation date at or after the configured cutoff,
and (when PHASE2_SKIP_FORKS) fork false; the result is ordered by
star count descending then recency descending and is limited to
PHASE2_MAX_REPOS entries; hence any row whose phase-2 completion
marker is set is excluded from the candidate set — computed from the
table alone, with no in-memory state. -/
theorem C6_selection_filters_orders_limits (min_stars : Nat) (cutoff : Int)
    (skip_forks : Bool) (max_repos : Nat) (table : List Row) :
    (∀ r ∈ get_repositories_for_enrichment min_stars cutoff skip_forks max_repos table,
      r ∈ table ∧ r.phase1_completed = true ∧ r.phase2_completed = false ∧
      min_stars ≤ r.stargazers_count ∧ cutoff ≤ r.created_at ∧
      (skip_forks = true → r.fork = false)) ∧
    (get_repositories_for_enrichment min_stars cutoff skip_forks max_repos
      table).length ≤ max_repos ∧
    List.Pairwise (fun a b => phase2_le a b = true)
      (get_repositories_for_enrichment min_stars cutoff skip_forks max_repos table) ∧
    (∀ r ∈ table, r.phase2_completed = true →
      r ∉ get_repositories_for_enrichment min_stars cutoff skip_forks max_repos
        table) := by
  have hmem : ∀ r ∈ get_repositories_for_enrichment min_stars cutoff skip_forks
      max_repos table,
      r ∈ table ∧ phase2_where min_stars cutoff skip_forks r = true := by
    intro r hr
    have h1 : r ∈ (table.filter
        (phase2_where min_stars cutoff skip_forks)).mergeSort phase2_le :=
      List.mem_of_mem_take hr
    have h2 : r ∈ table.filter (phase2_where min_stars cutoff skip_forks) :=
      List.mem_mergeSort.mp h1
    exact ⟨List.mem_of_mem_filter h2, List.of_mem_filter h2⟩
  refine ⟨?_, ?_, ?_, ?_⟩
  · intro r hr
    obtain ⟨htab, hwhere⟩ := hmem r hr
    simp only [phase2_where, Bool.and_eq_true, decide_eq_true_eq,
      Bool.not_eq_true', Bool.or_eq_true] at hwhere
    obtain ⟨⟨⟨⟨hp1, hp2⟩, hstars⟩, hage⟩, hfork⟩ := hwhere
    refine ⟨htab, hp1, hp2, hstars, hage, ?_⟩
    intro hsf
    rcases hfork with h | h
    · rw [hsf] at h; exact absurd h (by simp)
    · simpa using h
  · calc (get_repositories_for_enrichment min_stars cutoff skip_forks max_repos
        table).length
        = min max_repos ((table.filter
            (phase2_where min_stars cutoff skip_forks)).mergeSort phase2_le).length :=
          List.length_take _ _
      _ ≤ max_repos := Nat.min_le_left _ _
  · have hsorted : List.Pairwise (fun a b => phase2_le a b = true)
        ((table.filter (phase2_where min_stars cutoff skip_forks)).mergeSort
          phase2_le) :=
      List.sorted_mergeSort phase2_le_trans phase2_le_total _
    exact List.Pairwise.sublist (List.take_sublist _ _) hsorted
  · intro r _ hcompleted hr
    have := (hmem r hr).2
    rw [phase2_where_false_of_completed min_stars cutoff skip_forks r hcompleted]
      at this
    exact Bool.false_ne_true this

/-- Helper: the running maximum of Python's max-by-byte-count scan
never drops below its accumulator's byte count. -/
theorem max_by_bytes_go_acc_le (xs : List (String × Nat)) :
    ∀ x : String × Nat,
      x.2 ≤ (xs.foldl (fun acc y => if acc.2 < y.2 then y else acc) x).2 := by
  induction xs with
  | nil => intro x; exact le_rfl
  | cons y ys ih =>
    intro x
    simp only [List.foldl_cons]
    by_cases hc : x.2 < y.2
    · rw [if_pos hc]
      exact le_trans (le_of_lt hc) (ih y)
    · rw [if_neg hc]
      exact ih x

/-- Helper: the scan's result is one of the scanned pairs. -/
theorem max_by_bytes_go_mem (xs : List (String × Nat)) :
    ∀ x, (xs.foldl (fun acc y => if acc.2 < y.2 then y else acc) x) ∈ x :: xs := by
  induction xs with
  | nil => intro x; exact List.mem_cons_self x []
  | cons y ys ih =>
    intro x
    simp only [List.foldl_cons]
    by_cases hc : x.2 < y.2
    · rw [if_pos hc]
      exact List.mem_cons_of_mem x (ih y)
    · rw [if_neg hc]
      rcases List.mem_cons.mp (ih x) with h | h
      · rw [h]; exact List.mem_cons_self _ _
      · exact List.mem_cons_of_mem _ (List.mem_cons_of_mem _ h)

/-- Helper: the scan's result dominates every scanned byte count. -/
theorem max_by_bytes_go_bound (xs : List (String × Nat)) :
    ∀ x p, p ∈ x :: xs →
      p.2 ≤ (xs.foldl (fun acc y => if acc.2 < y.2 then y else acc) x).2 := by
  induction xs with
  | nil =>
    intro x p hp
    rw [List.mem_singleton] at hp
    rw [hp]
    exact le_rfl
  | cons y ys ih =>
    intro x p hp
    simp only [List.foldl_cons]
    rcases List.mem_cons.mp hp with rfl | hp'
    · by_cases hc : p.2 < y.2
      · rw [if_pos hc]
        exact le_trans (le_of_lt hc) (max_by_bytes_go_acc_le ys y)
      · rw [if_neg hc]
        exact max_by_bytes_go_acc_le ys p
    · rcases List.mem_cons.mp hp' with rfl | hp''
      · by_cases hc : x.2 < p.2
        · rw [if_pos hc]
          exact max_by_bytes_go_acc_le ys p
        · rw [if_neg hc]
          exact le_trans (le_of_not_lt hc) (max_by_bytes_go_acc_le ys x)
      · exact ih _ p (List.mem_cons_of_mem _ hp'')

/-- Counterexample to claim C10 as stated: the non-empty
language-to-bytes map {A: 0} makes the percentage computation divide
by a zero byte total, the ZeroDivisionError is caught, and
get_repository_languages returns None instead of a result naming A as
main language with percentages. -/
theorem C10_counterexample_zero_total :
    get_repository_languages (some [("A", 0)]) = none := rfl

/-- Claim C10 (amended): given a non-empty language-to-bytes map
whose byte counts are not all zero, get_repository_languages returns
as main_language an arg-max-by-bytes language and, for each language,
the percentage bytes/total*100 rounded (half-to-even) to two
decimals; in particular on input {A: 300, B: 100} the main language
is A and the percentages are 75.0 and 25.0, summing exactly to
100.0. -/
theorem C10_languages_argmax_and_percentages (langs : List (String × Nat))
    (hne : langs ≠ [])
    (hpos : 0 < (langs.map (fun p => p.2)).sum) :
    ∃ ld, get_repository_languages (some langs) = some ld ∧
      (∃ b, (ld.main_language, b) ∈ langs ∧ ∀ p ∈ langs, p.2 ≤ b) ∧
      ld.language_stats = langs.map (fun p =>
        (p.1, p.2,
          py_round2 (((p.2 : ℚ) / (((langs.map (fun q => q.2)).sum : ℕ) : ℚ)) * 100))) ∧
      ld.total_code_bytes = (langs.map (fun q => q.2)).sum ∧
      get_repository_languages (some exampleLangs) =
        some ⟨"A", [("A", 300, 75), ("B", 100, 25)], 400⟩ ∧
      (75 : ℚ) + 25 = 100 := by
  cases langs with
  | nil => exact absurd rfl hne
  | cons x xs =>
    have htne : ¬(((x :: xs).map (fun p => p.2)).sum = 0) := by
      intro h0
      rw [h0] at hpos
      exact lt_irrefl 0 hpos
    have hresult : get_repository_languages (some (x :: xs)) =
        some ⟨(xs.foldl (fun acc y => if acc.2 < y.2 then y else acc) x).1,
          (x :: xs).map (fun p => (p.1, p.2,
            py_round2 (((p.2 : ℚ) /
              ((((x :: xs).map (fun q => q.2)).sum : ℕ) : ℚ)) * 100))),
          ((x :: xs).map (fun q => q.2)).sum⟩ := by
      simp only [get_repository_languages, List.isEmpty_cons, Bool.false_eq_true,
        if_false, max_by_bytes]
      rw [if_neg htne]
    refine ⟨_, hresult, ?_, rfl, rfl, ?_, by norm_num⟩
    · refine ⟨(xs.foldl (fun acc y => if acc.2 < y.2 then y else acc) x).2, ?_, ?_⟩
      · exact max_by_bytes_go_mem xs x
      · exact fun p hp => max_by_bytes_go_bound xs x p hp
    · have hconc : get_repository_languages (some exampleLangs) =
          some ⟨"A",
            [("A", 300, py_round2 ((((300 : ℕ) : ℚ) / (((400 : ℕ) : ℕ) : ℚ)) * 100)),
             ("B", 100, py_round2 ((((100 : ℕ) : ℚ) / (((400 : ℕ) : ℕ) : ℚ)) * 100))],
            400⟩ := rfl
      rw [hconc]
      norm_num [py_round2, round_half_even]

/-- Witness for the amended C10 at the specification's example map
{A: 300, B: 100}. -/
theorem C10_languages_argmax_and_percentages_witness :
    exampleLangs ≠ [] ∧ 0 < (exampleLangs.map (fun p => p.2)).sum ∧
    (∃ ld, get_repository_languages (some exampleLangs) = some ld ∧
      (∃ b, (ld.main_language, b) ∈ exampleLangs ∧ ∀ p ∈ exampleLangs, p.2 ≤ b) ∧
      ld.language_stats = exampleLangs.map (fun p =>
        (p.1, p.2,
          py_round2 (((p.2 : ℚ) /
            (((exampleLangs.map (fun q => q.2)).sum : ℕ) : ℚ)) * 100))) ∧
      ld.total_code_bytes = (exampleLangs.map (fun q => q.2)).sum ∧
      get_repository_languages (some exampleLangs) =
        some ⟨"A", [("A", 300, 75), ("B", 100, 25)], 400⟩ ∧
      (75 : ℚ) + 25 = 100) :=
  ⟨by decide, by decide,
    C10_languages_argmax_and_percentages exampleLangs (by decide) (by decide)⟩

end ScrapGithub
